import Mathlib

/-
  Shallow embedding of src/Bio/Phylo/PAML/_parse_yn00.py.

  Modelling conventions:
  * Python float values are modelled exactly: finite values as rationals
    (the report only carries short decimal literals, whose comparisons in
    the claims are decimal-exact), plus distinguished NaN and signed
    infinity constructors (Python float("nan") / float("inf") succeed).
  * Python dictionaries are association lists with Python semantics:
    lookup returns the first binding, assignment updates an existing key
    in place and appends a fresh key at the end (insertion order).
    The source never mutates a shared inner dictionary after storing it
    under two slots at different keys, so a purely functional update is
    a faithful rendering of the in-place mutation.
  * Fallible operations return Except PyErr; an uncaught Python exception
    is an error value that the per-line fold propagates (the loop stops,
    the function raises).
  * Regular expressions are rendered as dedicated matching functions with
    leftmost, greedy, backtracking semantics of the re module, specialised
    to the four patterns of the source.  The character classes \s and \d
    are modelled over their ASCII range (the report format is ASCII).
-/

namespace Yn00

/-- Python whitespace class \s over its ASCII range. -/
def isSpaceChar (c : Char) : Bool :=
  c = ' ' || c = '\t' || c = '\n' || c = '\r' || c = '\x0b' || c = '\x0c'

/-- Python digit class \d over its ASCII range. -/
def isDigitChar (c : Char) : Bool :=
  '0' ≤ c && c ≤ '9'

/-- Numeric value of a list of decimal digit characters. -/
def natOfDigits (ds : List Char) : Nat :=
  ds.foldl (fun n c => 10 * n + (c.toNat - '0'.toNat)) 0

/-- Python str.strip() with no argument: drop whitespace at both ends. -/
def stripWs (s : List Char) : List Char :=
  ((s.dropWhile isSpaceChar).reverse.dropWhile isSpaceChar).reverse

/-- Membership test for the two parenthesis characters. -/
def isParenChar (c : Char) : Bool :=
  c = '(' || c = ')'

/-- Python str.strip("()"): drop parentheses at both ends. -/
def stripParens (s : List Char) : List Char :=
  ((s.dropWhile isParenChar).reverse.dropWhile isParenChar).reverse

/-- True when the first list starts with the second. -/
def startsWith : List Char → List Char → Bool
  | _, [] => true
  | [], _ :: _ => false
  | c :: cs, d :: ds => c = d && startsWith cs ds

/-- Python substring containment: pat in s. -/
def hasSub (pat : List Char) : List Char → Bool
  | [] => startsWith [] pat
  | c :: rest => startsWith (c :: rest) pat || hasSub pat rest

/-- Python str.split(sep) for a one-character separator. -/
def splitOnChar (sep : Char) : List Char → List (List Char)
  | [] => [[]]
  | c :: rest =>
    let r := splitOnChar sep rest
    if c = sep then [] :: r
    else
      match r with
      | [] => [[c]]
      | seg :: segs => (c :: seg) :: segs

/-- Helper for splitWs carrying the current (reversed) token. -/
def splitWsGo (cur : List Char) : List Char → List (List Char)
  | [] => if cur.isEmpty then [] else [cur.reverse]
  | c :: rest =>
    if isSpaceChar c then
      if cur.isEmpty then splitWsGo [] rest
      else cur.reverse :: splitWsGo [] rest
    else splitWsGo (c :: cur) rest

/-- Python str.split() with no argument: split on whitespace runs, no empties. -/
def splitWs (s : List Char) : List (List Char) :=
  splitWsGo [] s

/-- Python exceptions that the source can raise. -/
inductive PyErr where
  | keyError (k : String)
  | indexError
  | valueError (msg : String)
deriving DecidableEq

/-- An exact rational in lowest terms with positive denominator, the
value of a finite Python float.  The report carries short decimal
literals, on which exact-rational semantics coincides with the float
comparisons the claims make; the canonical form makes model equality
agree with Python float equality (in particular -0.0 is the same value
as 0.0).  Kept separate from Mathlib rationals so that every operation
reduces inside the kernel. -/
structure Frac where
  num : Int
  den : Nat
deriving DecidableEq

/-- Build the canonical fraction n / d (d positive). -/
def mkFrac (n : Int) (d : Nat) : Frac :=
  let g := Nat.gcd n.natAbs d
  ⟨n / g, d / g⟩

/-- Negation of a fraction; canonical form is preserved. -/
def fracNeg (f : Frac) : Frac :=
  ⟨-f.num, f.den⟩

/-- The rational value of a fraction, for statements that compare stored
statistics with decimal constants. -/
def fracToRat (f : Frac) : ℚ :=
  (f.num : ℚ) / (f.den : ℚ)

/-- Python float values: finite rational, NaN, or signed infinity. -/
inductive PyFloat where
  | num (f : Frac)
  | nan
  | inf (neg : Bool)
deriving DecidableEq

/-- A statistic value: a float, or Python None (stored on unparseable text). -/
inductive StatVal where
  | val (x : PyFloat)
  | undef
deriving DecidableEq

/-- Association list with Python dict semantics. -/
abbrev Dict (α : Type) := List (String × α)

/-- Python dict lookup: first binding for the key. -/
def dget {α : Type} : Dict α → String → Option α
  | [], _ => none
  | (k, v) :: rest, key => if k = key then some v else dget rest key

/-- Python dict assignment: replace in place, else append at the end. -/
def dset {α : Type} : Dict α → String → α → Dict α
  | [], key, v => [(key, v)]
  | (k, w) :: rest, key, v =>
    if k = key then (key, v) :: rest else (k, w) :: dset rest key v

/-- Key list of a dict, in insertion order. -/
def dkeys {α : Type} (d : Dict α) : List String :=
  d.map Prod.fst

/-- Mandatory lookup: Python subscript read, raising KeyError when absent. -/
def getKey {α : Type} (d : Dict α) (k : String) : Except PyErr α :=
  match dget d k with
  | some v => .ok v
  | none => .error (.keyError k)

/-- Python list subscript with a nonnegative index, raising IndexError. -/
def getIdx {α : Type} (xs : List α) (i : Nat) : Except PyErr α :=
  match xs.get? i with
  | some x => .ok x
  | none => .error .indexError

/-- Python list subscript with a possibly negative index. -/
def pyIndex {α : Type} (xs : List α) (i : Int) : Except PyErr α :=
  let j : Int := if i < 0 then i + xs.length else i
  if j < 0 then .error .indexError
  else
    match xs.get? j.toNat with
    | some x => .ok x
    | none => .error .indexError

/-- Statistics of one method for one pair: statistic name to value. -/
abbrev MethodStats := Dict StatVal

/-- All methods of one pair: method label to statistics. -/
abbrev PairRes := Dict MethodStats

/-- Inner level of the result table: partner name to pair results. -/
abbrev InnerTable := Dict PairRes

/-- The result table: sequence name to inner table. -/
abbrev Table := Dict InnerTable

/-- Match of the float pattern -*\d+\.\d+ anchored at the head of the list;
returns the matched token and the remaining characters. -/
def matchFloatAt (s : List Char) : Option (List Char × List Char) :=
  let ms := s.takeWhile (fun c => c = '-')
  let r1 := s.dropWhile (fun c => c = '-')
  let d1 := r1.takeWhile isDigitChar
  let r2 := r1.dropWhile isDigitChar
  match d1, r2 with
  | [], _ => none
  | _ :: _, '.' :: r3 =>
    let d2 := r3.takeWhile isDigitChar
    let r4 := r3.dropWhile isDigitChar
    match d2 with
    | [] => none
    | _ :: _ => some (ms ++ d1 ++ '.' :: d2, r4)
  | _ :: _, _ => none

/-- Fuelled scanner for re.findall of the float pattern; every step consumes
at least one character, so fuel equal to the length is always enough. -/
def findFloatsGo : Nat → List Char → List (List Char)
  | 0, _ => []
  | _ + 1, [] => []
  | fuel + 1, c :: rest =>
    match matchFloatAt (c :: rest) with
    | some (m, r) => m :: findFloatsGo fuel r
    | none => findFloatsGo fuel rest

/-- Model of re.findall("-*\d+\.\d+", line): leftmost non-overlapping matches. -/
def findFloats (s : List Char) : List (List Char) :=
  findFloatsGo s.length s

/-- Exponent suffix of a float literal, after the letter e. -/
def parseExpTail (r : List Char) : Option Int :=
  let p : Bool × List Char :=
    match r with
    | '-' :: t => (true, t)
    | '+' :: t => (false, t)
    | t => (false, t)
  let ds := p.2.takeWhile isDigitChar
  let rest := p.2.dropWhile isDigitChar
  if ds.isEmpty then none
  else if rest.isEmpty then
    some (if p.1 then -(natOfDigits ds : Int) else (natOfDigits ds : Int))
  else none

/-- The fraction (ip.fp) * 10^ex, for an integer part, fractional digit
block of length k, and decimal exponent. -/
def decFrac (ip fp k : Nat) (ex : Int) : Frac :=
  match ex with
  | .ofNat e => mkFrac ((ip * 10 ^ k + fp : Nat) * 10 ^ e : Nat) (10 ^ k)
  | .negSucc e => mkFrac (ip * 10 ^ k + fp : Nat) (10 ^ k * 10 ^ (e + 1))

/-- Unsigned decimal part of a Python float literal:
digits [ . digits ] [ exponent ] with at least one digit present. -/
def parseDecimal (s : List Char) : Option Frac :=
  let d1 := s.takeWhile isDigitChar
  let r1 := s.dropWhile isDigitChar
  match r1 with
  | [] => if d1.isEmpty then none else some (decFrac (natOfDigits d1) 0 0 0)
  | '.' :: r2 =>
    let d2 := r2.takeWhile isDigitChar
    let r3 := r2.dropWhile isDigitChar
    if d1.isEmpty && d2.isEmpty then none
    else
      match r3 with
      | [] => some (decFrac (natOfDigits d1) (natOfDigits d2) d2.length 0)
      | e :: r4 =>
        if e = 'e' || e = 'E' then
          (parseExpTail r4).map (fun ex => decFrac (natOfDigits d1) (natOfDigits d2) d2.length ex)
        else none
  | e :: r4 =>
    if (e = 'e' || e = 'E') && !d1.isEmpty then
      (parseExpTail r4).map (fun ex => decFrac (natOfDigits d1) 0 0 ex)
    else none

/-- Model of the Python builtin float(...) on a text token: optional
whitespace and sign, then nan, inf, infinity (case insensitive) or a
decimal literal.  Digit-group underscores are elided (absent from the
report format).  none models a raised ValueError. -/
def floatLit (s : List Char) : Option PyFloat :=
  let t := stripWs s
  let p : Bool × List Char :=
    match t with
    | '-' :: r => (true, r)
    | '+' :: r => (false, r)
    | r => (false, r)
  let lb := p.2.map Char.toLower
  if lb = "nan".toList then some PyFloat.nan
  else if lb = "inf".toList || lb = "infinity".toList then some (PyFloat.inf p.1)
  else (parseDecimal p.2).map (fun q => PyFloat.num (if p.1 then fracNeg q else q))

/-- Conversion of a token matched by the float regex; the regex admits
repeated minus signs, which float(...) rejects with a ValueError. -/
def floatOfTok (t : List Char) : Except PyErr Frac :=
  match floatLit t with
  | some (PyFloat.num q) => .ok q
  | some _ => .error (.valueError (String.mk t))
  | none => .error (.valueError (String.mk t))

/-- The list line_floats of a line: all float tokens, converted. -/
def floatsOfLine (line : String) : Except PyErr (List Frac) :=
  (findFloats line.data).mapM floatOfTok

/-- Greedy search for the longest nonempty prefix of length at most the
given bound whose remainder satisfies the continuation. -/
def greedyGo {α : Type} (s : List Char) (cont : List Char → Option α) :
    Nat → Option (List Char × α)
  | 0 => none
  | k + 1 =>
    match cont (s.drop (k + 1)) with
    | some v => some (s.take (k + 1), v)
    | none => greedyGo s cont k

/-- Greedy match of a captured (.+) followed by a continuation pattern:
the dot excludes newline, and backtracking yields the longest capture. -/
def dotPlus {α : Type} (s : List Char) (cont : List Char → Option α) :
    Option (List Char × α) :=
  greedyGo s cont (s.takeWhile (fun c => c ≠ '\n')).length

/-- Search for the largest label length p with at least five whitespace
characters directly after position p. -/
def rowLabelGo (s : List Char) : Nat → Option (List Char)
  | 0 => none
  | p + 1 =>
    if 5 ≤ ((s.drop (p + 1)).takeWhile isSpaceChar).length then some (s.take (p + 1))
    else rowLabelGo s p

/-- Model of re.match("(.+)\s{5,15}", line): group 1 is the longest
newline-free prefix followed by at least five whitespace characters. -/
def matchRowLabel (s : List Char) : Option (List Char) :=
  rowLabelGo s (s.takeWhile (fun c => c ≠ '\n')).length

/-- Row label of a line, stripped, as the source computes seq_name. -/
def rowLabelOf (line : String) : Option String :=
  (matchRowLabel line.data).map (fun g => String.mk (stripWs g))

/-- Model of re.match("\s+(\d+)\s+(\d+)", line): both captured digit runs
are maximal, converted by int(...). -/
def matchYnRow (s : List Char) : Option (Nat × Nat) :=
  let w1 := s.takeWhile isSpaceChar
  let r1 := s.dropWhile isSpaceChar
  if w1.isEmpty then none
  else
    let d1 := r1.takeWhile isDigitChar
    let r2 := r1.dropWhile isDigitChar
    if d1.isEmpty then none
    else
      let w2 := r2.takeWhile isSpaceChar
      let r3 := r2.dropWhile isSpaceChar
      if w2.isEmpty then none
      else
        let d2 := r3.takeWhile isDigitChar
        if d2.isEmpty then none
        else some (natOfDigits d1, natOfDigits d2)

/-- Tail of the pair-header pattern after the first captured group:
literal close paren, space, v, s, any non-newline character for the
unescaped dot, space, digits, space, open paren, then the second
captured group up to a close paren. -/
def headerTail (t : List Char) : Option (List Char) :=
  match t with
  | ')' :: ' ' :: 'v' :: 's' :: c :: ' ' :: r =>
    if c = '\n' then none
    else
      let d2 := r.takeWhile isDigitChar
      let r2 := r.dropWhile isDigitChar
      if d2.isEmpty then none
      else
        match r2 with
        | ' ' :: '(' :: r3 =>
          (dotPlus r3 (fun u =>
            match u with
            | ')' :: _ => some ()
            | _ => none)).map Prod.fst
        | _ => none
  | _ => none

/-- Model of re.match("\d+ \((.+)\) vs. \d+ \((.+)\)", line), returning
the two captured sequence names. -/
def matchHeader (s : List Char) : Option (List Char × List Char) :=
  let d1 := s.takeWhile isDigitChar
  let r1 := s.dropWhile isDigitChar
  if d1.isEmpty then none
  else
    match r1 with
    | ' ' :: '(' :: r2 => dotPlus r2 headerTail
    | _ => none

/-- The NG86 statistics dict of one group of three floats, in the
insertion order omega, dN, dS of the source. -/
def ngStats (x y z : Frac) : MethodStats :=
  [("omega", StatVal.val (PyFloat.num x)),
   ("dN", StatVal.val (PyFloat.num y)),
   ("dS", StatVal.val (PyFloat.num z))]

/-- Inner loop of parse_ng86 over the float list in steps of three,
with j the running group index i//3.  Missing floats inside a group
raise IndexError while the NG86 dict is built; then the two symmetric
row assignments read results[seq_name], index sequences[j], and write
fresh pair dicts in both directions. -/
def ng86Loop (name : String) (seqs : List String) :
    Table → Nat → List Frac → Except PyErr Table
  | res, _, [] => .ok res
  | _, _, [_] => .error .indexError
  | _, _, [_, _] => .error .indexError
  | res, j, x :: y :: z :: rest => do
    let row ← getKey res name
    let colName ← getIdx seqs j
    let res1 := dset res name (dset row colName [("NG86", ngStats x y z)])
    let col ← getKey res1 colName
    let res2 := dset res1 colName (dset col name [("NG86", ngStats x y z)])
    ng86Loop name seqs res2 (j + 1) rest

/-- One line of parse_ng86: extract the floats (a float conversion error
propagates even on unlabeled lines), then, if the row-label pattern
matches, append the stripped name, reset its top-level entry to an empty
dict, and run the group loop. -/
def stepNg86 (st : Table × List String) (line : String) :
    Except PyErr (Table × List String) := do
  let fs ← floatsOfLine line
  match rowLabelOf line with
  | none => pure st
  | some name =>
    let seqs := st.2 ++ [name]
    let res ← ng86Loop name seqs (dset st.1 name []) 0 fs
    pure (res, seqs)

/-- The for-loop of parse_ng86 over the lines. -/
def ng86Run : Table × List String → List String → Except PyErr (Table × List String)
  | st, [] => .ok st
  | st, l :: ls =>
    match stepNg86 st l with
    | .error e => .error e
    | .ok st1 => ng86Run st1 ls

/-- parse_ng86(lines, results): returns (results, sequences). -/
def parse_ng86 (lines : List String) (results : Table) :
    Except PyErr (Table × List String) :=
  ng86Run (results, []) lines

/-- One assignment results[a][b][m] = stats: two mandatory lookups may
raise KeyError, then the method entry is set inside the pair dict. -/
def setMethod1 (res : Table) (a b m : String) (stats : MethodStats) :
    Except PyErr Table := do
  let pr ← getKey res a
  let pd ← getKey pr b
  .ok (dset res a (dset pr b (dset pd m stats)))

/-- One line of parse_yn00: extract all floats, and when the indexed row
pattern matches, resolve the two 1-based indices against sequences (with
Python negative-index semantics), read the nine fields in fixed order,
and store the YN00 dict symmetrically under both name orders. -/
def stepYn00 (seqs : List String) (res : Table) (line : String) :
    Except PyErr Table := do
  let fs ← floatsOfLine line
  match matchYnRow line.data with
  | none => pure res
  | some (seq1, seq2) =>
    let name1 ← pyIndex seqs ((seq1 : Int) - 1)
    let name2 ← pyIndex seqs ((seq2 : Int) - 1)
    let v0 ← getIdx fs 0
    let v1 ← getIdx fs 1
    let v2 ← getIdx fs 2
    let v3 ← getIdx fs 3
    let v4 ← getIdx fs 4
    let v5 ← getIdx fs 5
    let v6 ← getIdx fs 6
    let v7 ← getIdx fs 7
    let v8 ← getIdx fs 8
    let yn : MethodStats :=
      [("S", StatVal.val (PyFloat.num v0)),
       ("N", StatVal.val (PyFloat.num v1)),
       ("t", StatVal.val (PyFloat.num v2)),
       ("kappa", StatVal.val (PyFloat.num v3)),
       ("omega", StatVal.val (PyFloat.num v4)),
       ("dN", StatVal.val (PyFloat.num v5)),
       ("dN SE", StatVal.val (PyFloat.num v6)),
       ("dS", StatVal.val (PyFloat.num v7)),
       ("dS SE", StatVal.val (PyFloat.num v8))]
    let r1 ← setMethod1 res name1 name2 "YN00" yn
    setMethod1 r1 name2 name1 "YN00" yn

/-- The for-loop of parse_yn00 over the lines. -/
def yn00Run (seqs : List String) : Table → List String → Except PyErr Table
  | res, [] => .ok res
  | res, l :: ls =>
    match stepYn00 seqs res l with
    | .error e => .error e
    | .ok res1 => yn00Run seqs res1 ls

/-- parse_yn00(lines, results, sequences): returns results. -/
def parse_yn00 (lines : List String) (results : Table) (sequences : List String) :
    Except PyErr Table :=
  yn00Run sequences results lines

/-- A call of parse_yn00 at a composition site, with the state the caller
threads: the function reads sequences but never writes to it, so the
sequence list after the call is the one passed in. -/
def parse_yn00_call (lines : List String) (st : Table × List String) :
    Except PyErr (Table × List String) :=
  (parse_yn00 lines st.1 st.2).map (fun r => (r, st.2))

/-- The key/value loop of parse_others over the token list in steps of
three: the key is stripped of parentheses and w is renamed omega; a
missing value token (index i+2) raises the ValueError of the source with
the offending line; a value that float(...) rejects is stored as None. -/
def statsValsLoop (line : String) : MethodStats → List (List Char) → Except PyErr MethodStats
  | stats, [] => .ok stats
  | stats, k :: rest =>
    let stat0 := stripParens k
    let stat := if stat0 = "w".toList then "omega".toList else stat0
    match rest with
    | _ :: v :: rest2 =>
      let value := stripParens v
      let sv : StatVal :=
        match floatLit value with
        | some f => StatVal.val f
        | none => StatVal.undef
      statsValsLoop line (dset stats (String.mk stat) sv) rest2
    | _ => .error (.valueError ("Problem with stats line: " ++ line))

/-- Statistics of one method line: line.split(":")[1].strip().split()
(the subscript [1] raises IndexError when the line has no colon), then
the key/value loop starting from an empty dict. -/
def statsOfLine (line : String) : Except PyErr MethodStats := do
  let seg ←
    match (splitOnChar ':' line.data).get? 1 with
    | some s => Except.ok s
    | none => Except.error PyErr.indexError
  statsValsLoop line [] (splitWs (stripWs seg))

/-- The symmetric double store results[a][b][m] = results[b][a][m] = stats. -/
def storePair (res : Table) (a b m : String) (stats : MethodStats) :
    Except PyErr Table := do
  let r1 ← setMethod1 res a b m stats
  setMethod1 r1 b a m stats

/-- Classification of a statistics line by substring tests in the fixed
order of the source: LWL85 with a colon first, then LWL85m, then LPB93;
a line matching none of the three is not stored at all. -/
def storeStats (line : String) (n1 n2 : String) (stats : MethodStats) (res : Table) :
    Except PyErr Table :=
  if hasSub ("LWL85:".toList) line.data then storePair res n1 n2 "LWL85" stats
  else if hasSub ("LWL85m".toList) line.data then storePair res n1 n2 "LWL85m" stats
  else if hasSub ("LPB93".toList) line.data then storePair res n1 n2 "LPB93" stats
  else .ok res

/-- One line of parse_others: a header match replaces the active pair;
otherwise, only with both names set and a dS = marker present, the line
is parsed and stored; every other line is skipped silently. -/
def stepOthers (st : Option String × Option String × Table) (line : String) :
    Except PyErr (Option String × Option String × Table) :=
  match matchHeader line.data with
  | some (g1, g2) => .ok (some (String.mk g1), some (String.mk g2), st.2.2)
  | none =>
    match st.1, st.2.1 with
    | some n1, some n2 =>
      if hasSub ("dS =".toList) line.data then do
        let stats ← statsOfLine line
        let res ← storeStats line n1 n2 stats st.2.2
        .ok (some n1, some n2, res)
      else .ok st
    | _, _ => .ok st

/-- The for-loop of parse_others over the lines. -/
def othersRun : (Option String × Option String × Table) → List String →
    Except PyErr (Option String × Option String × Table)
  | st, [] => .ok st
  | st, l :: ls =>
    match stepOthers st l with
    | .error e => .error e
    | .ok st1 => othersRun st1 ls

/-- parse_others(lines, results, sequences): both name variables start as
None; returns results. -/
def parse_others (lines : List String) (results : Table) : Except PyErr Table :=
  (othersRun (none, none, results) lines).map (fun st => st.2.2)

/-- Lookup of the pair dict results[a][b]. -/
def pairGet (res : Table) (a b : String) : Option PairRes :=
  (dget res a).bind (fun pr => dget pr b)

/-- Lookup of the method entry results[a][b][m]. -/
def methodGet (res : Table) (a b m : String) : Option MethodStats :=
  (pairGet res a b).bind (fun pd => dget pd m)

/-- Lookup of a single statistic results[a][b][m][k]. -/
def statGet (res : Table) (a b m k : String) : Option StatVal :=
  (methodGet res a b m).bind (fun st => dget st k)

instance : DecidableEq MethodStats :=
  inferInstanceAs (DecidableEq (List (String × StatVal)))

instance : DecidableEq PairRes :=
  inferInstanceAs (DecidableEq (List (String × MethodStats)))

instance : DecidableEq InnerTable :=
  inferInstanceAs (DecidableEq (List (String × PairRes)))

instance : DecidableEq Table :=
  inferInstanceAs (DecidableEq (List (String × InnerTable)))

instance {ε α : Type} [DecidableEq ε] [DecidableEq α] : DecidableEq (Except ε α) := fun x y =>
  match x, y with
  | Except.error a, Except.error b =>
    if h : a = b then isTrue (by rw [h]) else isFalse (fun hc => h (by injection hc))
  | Except.error _, Except.ok _ => isFalse (fun hc => by injection hc)
  | Except.ok _, Except.error _ => isFalse (fun hc => by injection hc)
  | Except.ok a, Except.ok b =>
    if h : a = b then isTrue (by rw [h]) else isFalse (fun hc => h (by injection hc))

/-- A result table holding the pair entries for the two example names of
the grouped-methods section, as the matrix pass would have created them. -/
def seedPair : Table :=
  [("Pan_troglo", [("Homo_sapie", [])]), ("Homo_sapie", [("Pan_troglo", [])])]

/-- The grouped-methods pair header line of the examples. -/
def hdrLine : String := "2 (Pan_troglo) vs. 1 (Homo_sapie)"

/-- The all-NaN LWL85m statistics line of the examples. -/
def nanLine : String := "LWL85m: dS =    -nan dN =    -nan w =   -nan S =   -nan N =   -nan (rho = -nan)"

/-- The statistics dict the all-NaN line produces: float NaN everywhere. -/
def nanStats : MethodStats :=
  [("dS", .val .nan), ("dN", .val .nan), ("omega", .val .nan),
   ("S", .val .nan), ("N", .val .nan), ("rho", .val .nan)]

/-- A pre-seeded table with an existing method entry under pair (A, B). -/
def c3Seed : Table := [("A", [("B", [("M", [("x", StatVal.undef)])])])]

/-- A line whose label is A, followed by eight trailing spaces. -/
def c3Line : String := "A        "

/-- A statistics line containing both the substring LWL85: and the
substring LWL85m (as a key token). -/
def c4Line : String := "LWL85: dS = 1.0 LWL85m = 2.0"

/-- The seeded table of the indexed-table example: pair entries for A, B. -/
def c1Seed : Table := [("A", [("B", [])]), ("B", [("A", [])])]

/-- The single physical indexed-table row of the example; its dS SE value
is wrapped to the following line, so the row carries eight floats. -/
def c1Row : String := "   2    1    67.3   154.7   0.0136  3.6564  0.0000 -0.0000 +- 0.0000  0.0150"

/-- The eight float values of the example row, in canonical form:
67.3, 154.7, 0.0136, 3.6564, 0.0, -0.0, 0.0, 0.0150. -/
def c1Floats : List Frac :=
  [⟨673, 10⟩, ⟨1547, 10⟩, ⟨17, 1250⟩, ⟨9141, 2500⟩, ⟨0, 1⟩, ⟨0, 1⟩, ⟨0, 1⟩, ⟨3, 200⟩]

/-- The LWL85 statistics line of the examples. -/
def c6Line : String := "LWL85:  dS =  0.0227 dN =  0.0000 w = 0.0000 S =   45.0 N =  177.0"

/-- The statistics dict the LWL85 example line produces. -/
def c6Stats : MethodStats :=
  [("dS", .val (.num ⟨227, 10000⟩)), ("dN", .val (.num ⟨0, 1⟩)), ("omega", .val (.num ⟨0, 1⟩)),
   ("S", .val (.num ⟨45, 1⟩)), ("N", .val (.num ⟨177, 1⟩))]

/-- A statistics line whose final key/value group is truncated before its
value token: the token stream after the colon has eight tokens. -/
def c8Line : String := "LPB93:  dS =  0.0129 dN =  0.0000 w ="

/-- A statistics line arriving before any pair header. -/
def c10Pre : List String := ["LPB93:  dS = 0.1 dN = 0.2 w = 0.3"]

/-- The data row of the small matrix example: label B, one group. -/
def ngLine2 : String := "B     0.1000 (0.2000 0.3000)"

/-- A two-row matrix section: row A with no data, row B with one group. -/
def ngLines : List String := ["A     ", ngLine2]

/-- The NG86 group of row B against column A: omega 0.1, dN 0.2, dS 0.3. -/
def ngStatsW : MethodStats := ngStats ⟨1, 10⟩ ⟨1, 5⟩ ⟨3, 10⟩

/-- The table the two-row matrix section produces from an empty table. -/
def ngRes : Table :=
  [("A", [("B", [("NG86", ngStatsW)])]), ("B", [("A", [("NG86", ngStatsW)])])]

/-- The table the matrix pass leaves from c3Seed: entry A reset to empty. -/
def c3After : Table := [("A", [])]

/-- A pre-joined indexed-table row carrying all nine floats, the wrapped
continuation merged into the physical line. -/
def ynLine : String :=
  "   2    1    67.3   154.7   0.0136  3.6564  0.0000 -0.0000 +- 0.0000  0.0150  +- 0.0151"

/-- The YN00 statistics dict of the pre-joined row. -/
def ynStats : MethodStats :=
  [("S", .val (.num ⟨673, 10⟩)), ("N", .val (.num ⟨1547, 10⟩)),
   ("t", .val (.num ⟨17, 1250⟩)), ("kappa", .val (.num ⟨9141, 2500⟩)),
   ("omega", .val (.num ⟨0, 1⟩)), ("dN", .val (.num ⟨0, 1⟩)),
   ("dN SE", .val (.num ⟨0, 1⟩)), ("dS", .val (.num ⟨3, 200⟩)),
   ("dS SE", .val (.num ⟨151, 10000⟩))]

/-- The table after the matrix pass and the indexed-table pass of the
small example: both method dicts present under both pair directions. -/
def c7R2 : Table :=
  [("A", [("B", [("NG86", ngStatsW), ("YN00", ynStats)])]),
   ("B", [("A", [("NG86", ngStatsW), ("YN00", ynStats)])])]

/-- The table the grouped-methods writes produce from seedPair on the
all-NaN line: the NaN statistics stored under LWL85m in both directions. -/
def c4WT : Table :=
  [("Pan_troglo", [("Homo_sapie", [("LWL85m", nanStats)])]),
   ("Homo_sapie", [("Pan_troglo", [("LWL85m", nanStats)])])]

/-- C1: the indexed-table parser, fed the single example row with
SequenceList [A, B] and a table holding both pair entries, is claimed to
succeed with at least the first seven fields.  The code instead raises
IndexError: the physical line carries only eight floats (the dS SE value
is wrapped to the next physical line, exactly as in the docstring example
of the function), and the field loop reads line_floats[8]. -/
theorem c1_yn00_indexerror_on_wrapped_row :
    floatsOfLine c1Row = .ok c1Floats ∧
    c1Floats.map fracToRat = [67.3, 154.7, 0.0136, 3.6564, 0, 0, 0, 0.0150] ∧
    parse_yn00 [c1Row] c1Seed ["A", "B"] = .error PyErr.indexError := by
  refine ⟨by decide, ?_, by decide⟩
  norm_num [c1Floats, fracToRat]

/-- C2 counterexample: under an active pair, the all-NaN statistics line
stores the float NaN value (Python float("-nan") succeeds), not the None
undefined marker, under the key dS; NaN is not the undefined marker. -/
theorem c2_nan_not_undef_marker :
    (parse_others [hdrLine, nanLine] seedPair).map
        (fun T => statGet T "Pan_troglo" "Homo_sapie" "LWL85m" "dS")
      = .ok (some (StatVal.val PyFloat.nan)) ∧
    StatVal.val PyFloat.nan ≠ StatVal.undef := by
  constructor
  · decide
  · decide

/-- C2 amended: under an active pair, the all-NaN statistics line parses
without error and every key (dS, dN, omega, S, N, rho) maps to the float
NaN value, stored identically in both pair directions; the None marker is
reserved for tokens float(...) rejects. -/
theorem c2_amended_nan_floats_stored :
    (parse_others [hdrLine, nanLine] seedPair).map
        (fun T => (methodGet T "Pan_troglo" "Homo_sapie" "LWL85m",
                   methodGet T "Homo_sapie" "Pan_troglo" "LWL85m"))
      = .ok (some nanStats, some nanStats) := by decide

/-- C3 counterexample: the matrix parser resets the top-level entry of a
row label unconditionally, so a pre-seeded (sequence-name, pair, method)
entry under a name that occurs as a row label is destroyed by the pass. -/
theorem c3_preseeded_entry_clobbered :
    methodGet c3Seed "A" "B" "M" = some [("x", StatVal.undef)] ∧
    (parse_ng86 [c3Line] c3Seed).map (fun p => (methodGet p.1 "A" "B" "M", p.2))
      = .ok (none, ["A"]) := by
  constructor
  · decide
  · decide

/-- C4 counterexample: a statistics line containing the substring LWL85m
is nevertheless stored under the label LWL85 whenever it also contains
the substring LWL85: — the source tests LWL85: before LWL85m. -/
theorem c4_lwl85m_line_stored_under_lwl85 :
    hasSub ("LWL85m".toList) c4Line.data = true ∧
    hasSub ("dS =".toList) c4Line.data = true ∧
    (parse_others [hdrLine, c4Line] seedPair).map
        (fun T => (methodGet T "Pan_troglo" "Homo_sapie" "LWL85",
                   methodGet T "Pan_troglo" "Homo_sapie" "LWL85m",
                   methodGet T "Homo_sapie" "Pan_troglo" "LWL85m"))
      = .ok (some [("dS", .val (.num ⟨1, 1⟩)), ("LWL85m", .val (.num ⟨2, 1⟩))], none, none) := by
  refine ⟨by decide, by decide, by decide⟩

/-- C6: the example header followed by the example LWL85 line yields the
statistics dS = 0.0227, dN = 0, omega = 0 (key w renamed), S = 45,
N = 177 under label LWL85, and the identical dict in both directions. -/
theorem c6_lwl85_concrete_pair :
    (parse_others [hdrLine, c6Line] seedPair).map
        (fun T => (methodGet T "Pan_troglo" "Homo_sapie" "LWL85",
                   methodGet T "Homo_sapie" "Pan_troglo" "LWL85"))
      = .ok (some c6Stats, some c6Stats) ∧
    (c6Stats.map (fun kv => (kv.1,
        match kv.2 with
        | StatVal.val (PyFloat.num f) => fracToRat f
        | _ => 0)))
      = [("dS", 0.0227), ("dN", 0), ("omega", 0), ("S", 45), ("N", 177)] := by
  refine ⟨by decide, ?_⟩
  norm_num [c6Stats, fracToRat]

theorem bindOk {ε α β : Type} {x : Except ε α} {f : α → Except ε β} {b : β}
    (h : x >>= f = .ok b) : ∃ a, x = .ok a ∧ f a = .ok b := by
  cases x with
  | error e => simp [Bind.bind, Except.bind] at h
  | ok a => exact ⟨a, rfl, by simpa [Bind.bind, Except.bind] using h⟩

theorem dget_dset_self {α : Type} (d : Dict α) (k : String) (v : α) :
    dget (dset d k v) k = some v := by
  induction d with
  | nil => simp [dset, dget]
  | cons kv rest ih =>
    obtain ⟨k0, w⟩ := kv
    by_cases h : k0 = k
    · simp [dset, h, dget]
    · simp [dset, h, dget, ih]

theorem dget_dset_ne {α : Type} (d : Dict α) (k k' : String) (v : α) (h : k ≠ k') :
    dget (dset d k v) k' = dget d k' := by
  induction d with
  | nil => simp [dset, dget, h]
  | cons kv rest ih =>
    obtain ⟨k0, w⟩ := kv
    by_cases h0 : k0 = k
    · subst h0; simp [dset, dget, h]
    · simp [dset, h0, dget, ih]

theorem dget_isSome_iff {α : Type} (d : Dict α) (k : String) :
    (dget d k).isSome ↔ k ∈ dkeys d := by
  induction d with
  | nil => simp [dget, dkeys]
  | cons kv rest ih =>
    obtain ⟨k0, w⟩ := kv
    by_cases h : k0 = k
    · subst h; simp [dget, dkeys]
    · simp [dget, dkeys, h, ih, Ne.symm h]

theorem dget_none_iff {α : Type} (d : Dict α) (k : String) :
    dget d k = none ↔ k ∉ dkeys d := by
  rw [← dget_isSome_iff]
  cases dget d k <;> simp

theorem dkeys_nil {α : Type} : dkeys ([] : Dict α) = [] := rfl

theorem dkeys_cons {α : Type} (kv : String × α) (d : Dict α) :
    dkeys (kv :: d) = kv.1 :: dkeys d := rfl

theorem dkeys_dset_of_mem {α : Type} (d : Dict α) (k : String) (v w : α)
    (h : dget d k = some w) : dkeys (dset d k v) = dkeys d := by
  induction d with
  | nil => simp [dget] at h
  | cons kv rest ih =>
    obtain ⟨k0, w0⟩ := kv
    by_cases h0 : k0 = k
    · subst h0; simp [dset, dkeys_cons]
    · simp [dget, h0] at h
      simp [dset, h0, dkeys_cons, ih h]

theorem mem_dkeys_dset {α : Type} (d : Dict α) (k a : String) (v : α) :
    a ∈ dkeys (dset d k v) ↔ a ∈ dkeys d ∨ a = k := by
  induction d with
  | nil => simp [dset, dkeys_cons, dkeys_nil, eq_comm]
  | cons kv rest ih =>
    obtain ⟨k0, w0⟩ := kv
    by_cases h0 : k0 = k
    · subst h0
      simp [dset, dkeys_cons]
      tauto
    · simp [dset, h0, dkeys_cons, List.mem_cons, ih]
      tauto

theorem getKey_ok_iff {α : Type} (d : Dict α) (k : String) (v : α) :
    getKey d k = .ok v ↔ dget d k = some v := by
  unfold getKey
  cases h : dget d k <;> simp

theorem getIdx_ok_iff {α : Type} (xs : List α) (i : Nat) (x : α) :
    getIdx xs i = .ok x ↔ xs.get? i = some x := by
  unfold getIdx
  cases h : xs.get? i <;> simp

theorem stepOthers_no_header_no_pair (line : String) (res : Table)
    (h : matchHeader line.data = none) :
    stepOthers (none, none, res) line = .ok (none, none, res) := by
  simp [stepOthers, h]

theorem othersRun_skip_pre (pre rest : List String) (res : Table)
    (h : ∀ l ∈ pre, matchHeader l.data = none) :
    othersRun (none, none, res) (pre ++ rest) = othersRun (none, none, res) rest := by
  induction pre with
  | nil => rfl
  | cons l ls ih =>
    have h1 : matchHeader l.data = none := h l (by simp)
    have h2 : ∀ x ∈ ls, matchHeader x.data = none := fun x hx => h x (by simp [hx])
    rw [List.cons_append]
    simp only [othersRun, stepOthers_no_header_no_pair l res h1]
    exact ih h2

/-- C10: in the grouped-methods parser, every line arriving before the
first header line, including statistics lines with a dS = marker, is
skipped silently: the run over those lines raises no error and leaves the
result table (and the whole parse) exactly as if they were absent. -/
theorem c10_pre_header_lines_skipped (pre rest : List String) (res : Table)
    (h : ∀ l ∈ pre, matchHeader l.data = none) :
    parse_others (pre ++ rest) res = parse_others rest res := by
  unfold parse_others
  rw [othersRun_skip_pre pre rest res h]

theorem c10_pre_header_lines_skipped_witness :
    parse_others (c10Pre ++ []) seedPair = parse_others [] seedPair :=
  c10_pre_header_lines_skipped c10Pre [] seedPair (by decide)

theorem statsValsLoop_truncated (line : String) :
    ∀ (toks : List (List Char)) (stats : MethodStats), toks.length % 3 = 2 →
      statsValsLoop line stats toks
        = .error (.valueError ("Problem with stats line: " ++ line))
  | [], _, h => by simp at h
  | [_], _, h => by simp at h
  | [_, _], _, h => by rfl
  | k :: x :: v :: rest, stats, h => by
    have h3 : rest.length % 3 = 2 := by
      have hl : (k :: x :: v :: rest).length = rest.length + 3 := by simp
      rw [hl] at h
      omega
    unfold statsValsLoop
    exact statsValsLoop_truncated line rest _ h3

/-- C8: a line under an active pair that carries a dS = marker but whose
token stream after the colon is cut before the value of the final group
(token count congruent to 2 modulo 3) makes the parser raise the
ValueError reporting the offending line, and the run over the remaining
lines is abandoned: there is no recovery. -/
theorem c8_truncated_stats_line_fatal (line n1 n2 : String) (res : Table)
    (post : List String) (seg : List Char)
    (hh : matchHeader line.data = none)
    (hd : hasSub ("dS =".toList) line.data = true)
    (hseg : (splitOnChar ':' line.data).get? 1 = some seg)
    (htr : (splitWs (stripWs seg)).length % 3 = 2) :
    othersRun (some n1, some n2, res) (line :: post)
      = .error (.valueError ("Problem with stats line: " ++ line)) := by
  have hstats : statsOfLine line
      = .error (.valueError ("Problem with stats line: " ++ line)) := by
    unfold statsOfLine
    rw [hseg]
    show statsValsLoop line [] (splitWs (stripWs seg)) = _
    exact statsValsLoop_truncated line _ [] htr
  have hstep : stepOthers (some n1, some n2, res) line
      = .error (.valueError ("Problem with stats line: " ++ line)) := by
    unfold stepOthers
    rw [hh]
    simp only [hd, if_true]
    rw [hstats]
    rfl
  simp only [othersRun, hstep]

theorem c8_truncated_stats_line_fatal_witness :
    othersRun (some "A", some "B", c1Seed) [c8Line]
      = .error (.valueError ("Problem with stats line: " ++ c8Line)) :=
  c8_truncated_stats_line_fatal c8Line "A" "B" c1Seed []
    ("  dS =  0.0129 dN =  0.0000 w =".toList)
    (by decide) (by decide) (by decide) (by decide)

theorem stepNg86_seqs (st : Table × List String) (line : String)
    (st1 : Table × List String) (h : stepNg86 st line = .ok st1) :
    st1.2 = st.2 ++ (rowLabelOf line).toList := by
  unfold stepNg86 at h
  obtain ⟨fs, _, h⟩ := bindOk h
  cases hl : rowLabelOf line with
  | none =>
    rw [hl] at h
    cases h
    simp
  | some name =>
    rw [hl] at h
    obtain ⟨res, _, h⟩ := bindOk h
    cases h
    simp

theorem ng86Run_seqs : ∀ (ls : List String) (st out : Table × List String),
    ng86Run st ls = .ok out → out.2 = st.2 ++ ls.filterMap rowLabelOf
  | [], st, out, h => by
    cases h
    simp
  | l :: ls, st, out, h => by
    unfold ng86Run at h
    cases hs : stepNg86 st l with
    | error e => rw [hs] at h; cases h
    | ok st1 =>
      rw [hs] at h
      have h2 := ng86Run_seqs ls st1 out h
      have h1 := stepNg86_seqs st l st1 hs
      rw [h2, h1, List.filterMap_cons]
      cases rowLabelOf l <;> simp

theorem length_filterMap_eq_countP {α β : Type} (f : α → Option β) (l : List α) :
    (l.filterMap f).length = l.countP (fun a => (f a).isSome) := by
  induction l with
  | nil => rfl
  | cons x xs ih => cases h : f x <;> simp [List.filterMap_cons, h, List.countP_cons, ih]

theorem ng86Loop_untouched (name : String) (seqs : List String) :
    ∀ (fs : List Frac) (j : Nat) (res res' : Table),
      ng86Loop name seqs res j fs = .ok res' →
      ∀ a, a ≠ name → (∀ i, seqs.get? i ≠ some a) → dget res' a = dget res a
  | [], _, res, res', h, a, _, _ => by cases h; rfl
  | [_], _, _, _, h, _, _, _ => by cases h
  | [_, _], _, _, _, h, _, _, _ => by cases h
  | x :: y :: z :: rest, j, res, res', h, a, hna, hns => by
    unfold ng86Loop at h
    obtain ⟨row, hrow, h⟩ := bindOk h
    obtain ⟨colName, hcolg, h⟩ := bindOk h
    obtain ⟨col, hcolk, h⟩ := bindOk h
    rw [getIdx_ok_iff] at hcolg
    have hca : colName ≠ a := fun he => hns j (he ▸ hcolg)
    have ih := ng86Loop_untouched name seqs rest (j + 1) _ res' h a hna hns
    rw [ih, dget_dset_ne _ _ _ _ hca, dget_dset_ne _ _ _ _ (fun he => hna he.symm)]

theorem stepNg86_untouched (st : Table × List String) (line : String)
    (st1 : Table × List String) (h : stepNg86 st line = .ok st1) :
    ∀ a, a ∉ st1.2 → dget st1.1 a = dget st.1 a := by
  intro a ha
  unfold stepNg86 at h
  obtain ⟨fs, _, h⟩ := bindOk h
  cases hl : rowLabelOf line with
  | none =>
    rw [hl] at h
    cases h
    rfl
  | some name =>
    rw [hl] at h
    obtain ⟨res, hloop, h⟩ := bindOk h
    cases h
    have hseq : a ∉ st.2 ++ [name] := ha
    have hna : a ≠ name := fun he => hseq (by simp [he])
    have hns : ∀ i, (st.2 ++ [name]).get? i ≠ some a := by
      intro i hi
      exact hseq (List.get?_mem hi)
    have h1 := ng86Loop_untouched name (st.2 ++ [name]) fs 0 _ res hloop a hna hns
    rw [h1, dget_dset_ne _ _ _ _ (fun he => hna he.symm)]

theorem ng86Run_untouched : ∀ (ls : List String) (st out : Table × List String),
    ng86Run st ls = .ok out → ∀ a, a ∉ out.2 → dget out.1 a = dget st.1 a
  | [], st, out, h, a, _ => by cases h; rfl
  | l :: ls, st, out, h, a, ha => by
    unfold ng86Run at h
    cases hs : stepNg86 st l with
    | error e => rw [hs] at h; cases h
    | ok st1 =>
      rw [hs] at h
      have hpre : a ∉ st1.2 := by
        intro hmem
        have h2 := ng86Run_seqs ls st1 out h
        exact ha (h2 ▸ List.mem_append_left _ hmem)
      rw [ng86Run_untouched ls st1 out h a ha, stepNg86_untouched st l st1 hs a hpre]

/-- C3 amended: the matrix parser resets each row label entry; top-level
entries under a name that does not occur in the returned SequenceList are
left exactly as they were in the incoming table, with all their pair and
method entries. -/
theorem c3_amended_nonlabel_entries_preserved (lines : List String)
    (results res : Table) (seqs : List String) (a : String)
    (h : parse_ng86 lines results = .ok (res, seqs)) (ha : a ∉ seqs) :
    dget res a = dget results a :=
  ng86Run_untouched lines (results, []) (res, seqs) h a ha

theorem c3_amended_nonlabel_entries_preserved_witness :
    dget c3After "Z" = dget c3Seed "Z" :=
  c3_amended_nonlabel_entries_preserved [c3Line] c3Seed c3After ["A"] "Z"
    (by decide) (by decide)

/-- C9: when the matrix parser returns, the SequenceList is exactly the
stripped row labels in row order (hence its length is the number of
row-labeled lines and its order is the order of first appearance), and a
subsequent indexed-table call leaves the SequenceList unchanged. -/
theorem c9_sequence_list_labels (lines : List String) (results res : Table)
    (seqs : List String) (h : parse_ng86 lines results = .ok (res, seqs)) :
    seqs = lines.filterMap rowLabelOf ∧
    seqs.length = lines.countP (fun l => (rowLabelOf l).isSome) ∧
    ∀ (lines2 : List String) (st2 : Table × List String),
      parse_yn00_call lines2 (res, seqs) = .ok st2 → st2.2 = seqs := by
  have h1 : seqs = lines.filterMap rowLabelOf := by
    have h0 := ng86Run_seqs lines (results, []) (res, seqs) h
    simpa using h0
  refine ⟨h1, ?_, ?_⟩
  · rw [h1]
    exact length_filterMap_eq_countP rowLabelOf lines
  · intro lines2 st2 h2
    unfold parse_yn00_call at h2
    cases hy : parse_yn00 lines2 res seqs with
    | error e => rw [hy] at h2; cases h2
    | ok r =>
      rw [hy] at h2
      cases h2
      rfl

theorem setMethod1_methodGet_self (res : Table) (a b m : String)
    (stats : MethodStats) (T : Table) (h : setMethod1 res a b m stats = .ok T) :
    methodGet T a b m = some stats := by
  unfold setMethod1 at h
  obtain ⟨pr, hpr, h⟩ := bindOk h
  obtain ⟨pd, hpd, h⟩ := bindOk h
  cases h
  rw [getKey_ok_iff] at hpr hpd
  simp [methodGet, pairGet, dget_dset_self]

theorem storePair_methodGet (res : Table) (a b m : String) (stats : MethodStats)
    (T : Table) (h : storePair res a b m stats = .ok T) :
    methodGet T a b m = some stats ∧ methodGet T b a m = some stats := by
  unfold storePair at h
  obtain ⟨T1, h1, h2⟩ := bindOk h
  refine ⟨?_, setMethod1_methodGet_self T1 b a m stats T h2⟩
  by_cases hab : a = b
  · subst hab
    exact setMethod1_methodGet_self T1 a a m stats T h2
  · have hT1 := setMethod1_methodGet_self res a b m stats T1 h1
    unfold setMethod1 at h2
    obtain ⟨pr, hpr, h2⟩ := bindOk h2
    obtain ⟨pd, hpd, h2⟩ := bindOk h2
    cases h2
    unfold methodGet pairGet at hT1 ⊢
    rw [dget_dset_ne _ _ _ _ (fun he => hab he.symm)]
    exact hT1

/-- C4 amended: classification of a statistics line is by substring tests
in the fixed source order LWL85: (colon included), then LWL85m, then
LPB93; the matching label receives the statistics dict, written into both
pair directions.  In particular a line containing LWL85m but not LWL85:
is stored under LWL85m, while a line containing LWL85: is stored under
LWL85 even when it also contains LWL85m. -/
theorem c4_amended_colon_first_classification (line n1 n2 : String)
    (stats : MethodStats) (res : Table) :
    (hasSub ("LWL85:".toList) line.data = true →
      storeStats line n1 n2 stats res = storePair res n1 n2 "LWL85" stats) ∧
    (hasSub ("LWL85:".toList) line.data = false →
      hasSub ("LWL85m".toList) line.data = true →
      storeStats line n1 n2 stats res = storePair res n1 n2 "LWL85m" stats) ∧
    (hasSub ("LWL85:".toList) line.data = false →
      hasSub ("LWL85m".toList) line.data = false →
      hasSub ("LPB93".toList) line.data = true →
      storeStats line n1 n2 stats res = storePair res n1 n2 "LPB93" stats) ∧
    (∀ (m : String) (T : Table), storePair res n1 n2 m stats = .ok T →
      methodGet T n1 n2 m = some stats ∧ methodGet T n2 n1 m = some stats) := by
  refine ⟨?_, ?_, ?_, fun m T h => storePair_methodGet res n1 n2 m stats T h⟩
  · intro h1
    unfold storeStats
    rw [if_pos h1]
  · intro h1 h2
    unfold storeStats
    rw [if_neg (by simpa using h1), if_pos h2]
  · intro h1 h2 h3
    unfold storeStats
    rw [if_neg (by simpa using h1), if_neg (by simpa using h2), if_pos h3]

theorem c4_amended_colon_first_classification_witness :
    storeStats nanLine "Pan_troglo" "Homo_sapie" nanStats seedPair
      = storePair seedPair "Pan_troglo" "Homo_sapie" "LWL85m" nanStats ∧
    methodGet c4WT "Pan_troglo" "Homo_sapie" "LWL85m" = some nanStats ∧
    methodGet c4WT "Homo_sapie" "Pan_troglo" "LWL85m" = some nanStats := by
  refine ⟨(c4_amended_colon_first_classification nanLine "Pan_troglo" "Homo_sapie"
      nanStats seedPair).2.1 (by decide) (by decide), ?_, ?_⟩
  · exact ((c4_amended_colon_first_classification nanLine "Pan_troglo" "Homo_sapie"
      nanStats seedPair).2.2.2 "LWL85m" c4WT (by decide)).1
  · exact ((c4_amended_colon_first_classification nanLine "Pan_troglo" "Homo_sapie"
      nanStats seedPair).2.2.2 "LWL85m" c4WT (by decide)).2

theorem setMethod1_shape (res : Table) (a b m : String) (stats : MethodStats)
    (T : Table) (h : setMethod1 res a b m stats = .ok T) :
    dkeys T = dkeys res ∧
    ∀ x, Option.map dkeys (dget T x) = Option.map dkeys (dget res x) := by
  unfold setMethod1 at h
  obtain ⟨pr, hpr, h⟩ := bindOk h
  obtain ⟨pd, hpd, h⟩ := bindOk h
  cases h
  rw [getKey_ok_iff] at hpr hpd
  refine ⟨dkeys_dset_of_mem _ _ _ _ hpr, fun x => ?_⟩
  by_cases hx : a = x
  · subst hx
    rw [dget_dset_self, hpr]
    simp [dkeys_dset_of_mem _ _ _ _ hpd]
  · rw [dget_dset_ne _ _ _ _ hx]

theorem storePair_shape (res : Table) (a b m : String) (stats : MethodStats)
    (T : Table) (h : storePair res a b m stats = .ok T) :
    dkeys T = dkeys res ∧
    ∀ x, Option.map dkeys (dget T x) = Option.map dkeys (dget res x) := by
  unfold storePair at h
  obtain ⟨r1, h1, h2⟩ := bindOk h
  have s1 := setMethod1_shape res a b m stats r1 h1
  have s2 := setMethod1_shape r1 b a m stats T h2
  exact ⟨s2.1.trans s1.1, fun x => (s2.2 x).trans (s1.2 x)⟩

theorem storeStats_shape (line n1 n2 : String) (stats : MethodStats)
    (res T : Table) (h : storeStats line n1 n2 stats res = .ok T) :
    dkeys T = dkeys res ∧
    ∀ x, Option.map dkeys (dget T x) = Option.map dkeys (dget res x) := by
  unfold storeStats at h
  by_cases h1 : hasSub ("LWL85:".toList) line.data = true
  · rw [if_pos h1] at h
    exact storePair_shape res n1 n2 "LWL85" stats T h
  · rw [if_neg h1] at h
    by_cases h2 : hasSub ("LWL85m".toList) line.data = true
    · rw [if_pos h2] at h
      exact storePair_shape res n1 n2 "LWL85m" stats T h
    · rw [if_neg h2] at h
      by_cases h3 : hasSub ("LPB93".toList) line.data = true
      · rw [if_pos h3] at h
        exact storePair_shape res n1 n2 "LPB93" stats T h
      · rw [if_neg h3] at h
        cases h
        exact ⟨rfl, fun x => rfl⟩

theorem stepYn00_shape (seqs : List String) (res : Table) (line : String)
    (T : Table) (h : stepYn00 seqs res line = .ok T) :
    dkeys T = dkeys res ∧
    ∀ x, Option.map dkeys (dget T x) = Option.map dkeys (dget res x) := by
  unfold stepYn00 at h
  obtain ⟨fs, _, h⟩ := bindOk h
  cases hm : matchYnRow line.data with
  | none =>
    rw [hm] at h
    cases h
    exact ⟨rfl, fun x => rfl⟩
  | some p =>
    obtain ⟨sq1, sq2⟩ := p
    rw [hm] at h
    obtain ⟨n1, _, h⟩ := bindOk h
    obtain ⟨n2, _, h⟩ := bindOk h
    obtain ⟨v0, _, h⟩ := bindOk h
    obtain ⟨v1, _, h⟩ := bindOk h
    obtain ⟨v2, _, h⟩ := bindOk h
    obtain ⟨v3, _, h⟩ := bindOk h
    obtain ⟨v4, _, h⟩ := bindOk h
    obtain ⟨v5, _, h⟩ := bindOk h
    obtain ⟨v6, _, h⟩ := bindOk h
    obtain ⟨v7, _, h⟩ := bindOk h
    obtain ⟨v8, _, h⟩ := bindOk h
    obtain ⟨r1, hr1, h⟩ := bindOk h
    have s1 := setMethod1_shape res n1 n2 "YN00" _ r1 hr1
    have s2 := setMethod1_shape r1 n2 n1 "YN00" _ T h
    exact ⟨s2.1.trans s1.1, fun x => (s2.2 x).trans (s1.2 x)⟩

theorem yn00Run_shape (seqs : List String) : ∀ (ls : List String) (res T : Table),
    yn00Run seqs res ls = .ok T →
    dkeys T = dkeys res ∧
    ∀ x, Option.map dkeys (dget T x) = Option.map dkeys (dget res x)
  | [], res, T, h => by
    cases h
    exact ⟨rfl, fun x => rfl⟩
  | l :: ls, res, T, h => by
    unfold yn00Run at h
    cases hs : stepYn00 seqs res l with
    | error e => rw [hs] at h; cases h
    | ok r1 =>
      rw [hs] at h
      have s1 := stepYn00_shape seqs res l r1 hs
      have s2 := yn00Run_shape seqs ls r1 T h
      exact ⟨s2.1.trans s1.1, fun x => (s2.2 x).trans (s1.2 x)⟩

theorem stepOthers_shape (st : Option String × Option String × Table)
    (line : String) (st1 : Option String × Option String × Table)
    (h : stepOthers st line = .ok st1) :
    dkeys st1.2.2 = dkeys st.2.2 ∧
    ∀ x, Option.map dkeys (dget st1.2.2 x) = Option.map dkeys (dget st.2.2 x) := by
  obtain ⟨o1, o2, res⟩ := st
  unfold stepOthers at h
  cases hm : matchHeader line.data with
  | some p =>
    obtain ⟨g1, g2⟩ := p
    rw [hm] at h
    cases h
    exact ⟨rfl, fun x => rfl⟩
  | none =>
    rw [hm] at h
    cases o1 with
    | none =>
      cases h
      exact ⟨rfl, fun x => rfl⟩
    | some n1 =>
      cases o2 with
      | none =>
        cases h
        exact ⟨rfl, fun x => rfl⟩
      | some n2 =>
        dsimp only at h
        by_cases hd : hasSub ("dS =".toList) line.data = true
        · rw [if_pos hd] at h
          obtain ⟨stats, _, h⟩ := bindOk h
          obtain ⟨r, hr, h⟩ := bindOk h
          cases h
          exact storeStats_shape line n1 n2 stats res r hr
        · rw [if_neg hd] at h
          cases h
          exact ⟨rfl, fun x => rfl⟩

theorem othersRun_shape : ∀ (ls : List String)
    (st out : Option String × Option String × Table),
    othersRun st ls = .ok out →
    dkeys out.2.2 = dkeys st.2.2 ∧
    ∀ x, Option.map dkeys (dget out.2.2 x) = Option.map dkeys (dget st.2.2 x)
  | [], st, out, h => by
    cases h
    exact ⟨rfl, fun x => rfl⟩
  | l :: ls, st, out, h => by
    unfold othersRun at h
    cases hs : stepOthers st l with
    | error e => rw [hs] at h; cases h
    | ok st1 =>
      rw [hs] at h
      have s1 := stepOthers_shape st l st1 hs
      have s2 := othersRun_shape ls st1 out h
      exact ⟨s2.1.trans s1.1, fun x => (s2.2 x).trans (s1.2 x)⟩

theorem parse_others_shape (ls : List String) (res T : Table)
    (h : parse_others ls res = .ok T) :
    dkeys T = dkeys res ∧
    ∀ x, Option.map dkeys (dget T x) = Option.map dkeys (dget res x) := by
  unfold parse_others at h
  cases ho : othersRun (none, none, res) ls with
  | error e => rw [ho] at h; cases h
  | ok out =>
    rw [ho] at h
    cases h
    exact othersRun_shape ls (none, none, res) out ho

theorem ng86Loop_nameInv (name : String) (seqs : List String) :
    ∀ (fs : List Frac) (j : Nat) (res res' : Table),
      ng86Loop name seqs res j fs = .ok res' →
      (∀ a, a ∈ dkeys res → a ∈ seqs) →
      (∀ a pr b, dget res a = some pr → b ∈ dkeys pr → b ∈ seqs) →
      name ∈ seqs →
      (∀ a, a ∈ dkeys res' → a ∈ seqs) ∧
      (∀ a pr b, dget res' a = some pr → b ∈ dkeys pr → b ∈ seqs)
  | [], _, res, res', h, hk, hi, _ => by
    cases h
    exact ⟨hk, hi⟩
  | [_], _, _, _, h, _, _, _ => by cases h
  | [_, _], _, _, _, h, _, _, _ => by cases h
  | x :: y :: z :: rest, j, res, res', h, hk, hi, hname => by
    unfold ng86Loop at h
    obtain ⟨row, hrow, h⟩ := bindOk h
    obtain ⟨colName, hcolg, h⟩ := bindOk h
    obtain ⟨col, hcolk, h⟩ := bindOk h
    rw [getKey_ok_iff] at hrow hcolk
    rw [getIdx_ok_iff] at hcolg
    have hcolmem : colName ∈ seqs := List.get?_mem hcolg
    have hk1 : ∀ a, a ∈ dkeys (dset res name (dset row colName [("NG86", ngStats x y z)]))
        → a ∈ seqs := by
      intro a ha
      rcases (mem_dkeys_dset _ _ _ _).mp ha with ha | ha
      · exact hk a ha
      · exact ha ▸ hname
    have hi1 : ∀ a pr b,
        dget (dset res name (dset row colName [("NG86", ngStats x y z)])) a = some pr →
        b ∈ dkeys pr → b ∈ seqs := by
      intro a pr b hget hb
      by_cases hna : name = a
      · subst hna
        rw [dget_dset_self] at hget
        cases hget
        rcases (mem_dkeys_dset _ _ _ _).mp hb with hb | hb
        · exact hi name row b hrow hb
        · exact hb ▸ hcolmem
      · rw [dget_dset_ne _ _ _ _ hna] at hget
        exact hi a pr b hget hb
    have hk2 : ∀ a, a ∈ dkeys (dset
        (dset res name (dset row colName [("NG86", ngStats x y z)]))
        colName (dset col name [("NG86", ngStats x y z)])) → a ∈ seqs := by
      intro a ha
      rcases (mem_dkeys_dset _ _ _ _).mp ha with ha | ha
      · exact hk1 a ha
      · exact ha ▸ hcolmem
    have hi2 : ∀ a pr b, dget (dset
        (dset res name (dset row colName [("NG86", ngStats x y z)]))
        colName (dset col name [("NG86", ngStats x y z)])) a = some pr →
        b ∈ dkeys pr → b ∈ seqs := by
      intro a pr b hget hb
      by_cases hca : colName = a
      · subst hca
        rw [dget_dset_self] at hget
        cases hget
        rcases (mem_dkeys_dset _ _ _ _).mp hb with hb | hb
        · exact hi1 colName col b hcolk hb
        · exact hb ▸ hname
      · rw [dget_dset_ne _ _ _ _ hca] at hget
        exact hi1 a pr b hget hb
    exact ng86Loop_nameInv name seqs rest (j + 1) _ res' h hk2 hi2 hname

theorem stepNg86_nameInv (st st1 : Table × List String) (line : String)
    (h : stepNg86 st line = .ok st1)
    (hk : ∀ a, a ∈ dkeys st.1 → a ∈ st.2)
    (hi : ∀ a pr b, dget st.1 a = some pr → b ∈ dkeys pr → b ∈ st.2) :
    (∀ a, a ∈ dkeys st1.1 → a ∈ st1.2) ∧
    (∀ a pr b, dget st1.1 a = some pr → b ∈ dkeys pr → b ∈ st1.2) := by
  unfold stepNg86 at h
  obtain ⟨fs, _, h⟩ := bindOk h
  cases hl : rowLabelOf line with
  | none =>
    rw [hl] at h
    cases h
    exact ⟨hk, hi⟩
  | some name =>
    rw [hl] at h
    obtain ⟨res, hloop, h⟩ := bindOk h
    cases h
    have hname : name ∈ st.2 ++ [name] := by simp
    have hk0 : ∀ a, a ∈ dkeys (dset st.1 name []) → a ∈ st.2 ++ [name] := by
      intro a ha
      rcases (mem_dkeys_dset _ _ _ _).mp ha with ha | ha
      · exact List.mem_append_left _ (hk a ha)
      · simp [ha]
    have hi0 : ∀ a pr b, dget (dset st.1 name []) a = some pr →
        b ∈ dkeys pr → b ∈ st.2 ++ [name] := by
      intro a pr b hget hb
      by_cases hna : name = a
      · subst hna
        rw [dget_dset_self] at hget
        cases hget
        simp [dkeys_nil] at hb
      · rw [dget_dset_ne _ _ _ _ hna] at hget
        exact List.mem_append_left _ (hi a pr b hget hb)
    exact ng86Loop_nameInv name (st.2 ++ [name]) fs 0 _ res hloop hk0 hi0 hname

theorem ng86Run_nameInv : ∀ (ls : List String) (st out : Table × List String),
    ng86Run st ls = .ok out →
    (∀ a, a ∈ dkeys st.1 → a ∈ st.2) →
    (∀ a pr b, dget st.1 a = some pr → b ∈ dkeys pr → b ∈ st.2) →
    (∀ a, a ∈ dkeys out.1 → a ∈ out.2) ∧
    (∀ a pr b, dget out.1 a = some pr → b ∈ dkeys pr → b ∈ out.2)
  | [], st, out, h, hk, hi => by
    cases h
    exact ⟨hk, hi⟩
  | l :: ls, st, out, h, hk, hi => by
    unfold ng86Run at h
    cases hs : stepNg86 st l with
    | error e => rw [hs] at h; cases h
    | ok st1 =>
      rw [hs] at h
      have s1 := stepNg86_nameInv st st1 l hs hk hi
      exact ng86Run_nameInv ls st1 out h s1.1 s1.2

/-- C7: running the three parsers in order from an empty table, every
top-level key and every inner pair key of the final table is a name
discovered during matrix parsing (a member of the returned SequenceList);
the indexed-table and grouped-methods passes leave the top-level key list
unchanged. -/
theorem c7_names_only_from_matrix (l1 l2 l3 : List String) (r1 : Table)
    (seqs : List String) (r2 r3 : Table)
    (h1 : parse_ng86 l1 [] = .ok (r1, seqs))
    (h2 : parse_yn00 l2 r1 seqs = .ok r2)
    (h3 : parse_others l3 r2 = .ok r3) :
    (∀ a, a ∈ dkeys r3 → a ∈ seqs) ∧
    (∀ a pr b, dget r3 a = some pr → b ∈ dkeys pr → b ∈ seqs) ∧
    dkeys r2 = dkeys r1 ∧ dkeys r3 = dkeys r2 := by
  have hng := ng86Run_nameInv l1 ([], []) (r1, seqs) h1
    (by intro a ha; simp [dkeys_nil] at ha)
    (by intro a pr b hget; simp [dget] at hget)
  have hy := yn00Run_shape seqs l2 r1 r2 h2
  have ho := parse_others_shape l3 r2 r3 h3
  refine ⟨?_, ?_, hy.1, ho.1⟩
  · intro a ha
    rw [ho.1, hy.1] at ha
    exact hng.1 a ha
  · intro a pr b hget hb
    have hmap : Option.map dkeys (dget r3 a) = Option.map dkeys (dget r1 a) :=
      (ho.2 a).trans (hy.2 a)
    rw [hget] at hmap
    cases hg1 : dget r1 a with
    | none => rw [hg1] at hmap; cases hmap
    | some pr1 =>
      rw [hg1] at hmap
      have hkeys : dkeys pr = dkeys pr1 := by
        simpa using hmap
      exact hng.2 a pr1 b hg1 (hkeys ▸ hb)

theorem c7_names_only_from_matrix_witness :
    (∀ a, a ∈ dkeys c7R2 → a ∈ (["A", "B"] : List String)) ∧
    (∀ a pr b, dget c7R2 a = some pr → b ∈ dkeys pr →
      b ∈ (["A", "B"] : List String)) ∧
    dkeys c7R2 = dkeys ngRes ∧ dkeys c7R2 = dkeys c7R2 :=
  c7_names_only_from_matrix ngLines [ynLine] c10Pre ngRes ["A", "B"] c7R2 c7R2
    (by decide) (by decide) (by decide)

theorem get?_some_lt {α : Type} {l : List α} {i : Nat} {a : α}
    (h : l.get? i = some a) : i < l.length := by
  by_contra hlt
  rw [List.get?_eq_none.mpr (Nat.le_of_not_lt hlt)] at h
  cases h

theorem get?_inj_of_nodup {α : Type} (l : List α) (hnd : l.Nodup) (i j : Nat)
    (a : α) (hi : l.get? i = some a) (hj : l.get? j = some a) : i = j :=
  List.get?_inj (get?_some_lt hi) hnd (hi.trans hj.symm)

theorem pairGet_reset (res : Table) (name a b : String) :
    pairGet (dset res name []) a b = if a = name then none else pairGet res a b := by
  unfold pairGet
  by_cases ha : a = name
  · subst ha
    rw [dget_dset_self]
    simp [dget]
  · rw [dget_dset_ne _ _ _ _ (fun he => ha he.symm), if_neg ha]

theorem pairGet_double_write (res : Table) (a0 b0 : String) (row col : InnerTable)
    (v : PairRes)
    (hrow : dget res a0 = some row)
    (hcol : dget (dset res a0 (dset row b0 v)) b0 = some col) :
    ∀ a b, pairGet (dset (dset res a0 (dset row b0 v)) b0 (dset col a0 v)) a b
      = if (a = a0 ∧ b = b0) ∨ (a = b0 ∧ b = a0) then some v
        else pairGet res a b := by
  have hd1 : ∀ t, dget (dset res a0 (dset row b0 v)) t
      = if t = a0 then some (dset row b0 v) else dget res t := by
    intro t
    by_cases h1 : t = a0
    · rw [if_pos h1, h1, dget_dset_self]
    · rw [if_neg h1, dget_dset_ne _ _ _ _ (fun he => h1 he.symm)]
  intro a b
  unfold pairGet
  by_cases hab0 : a = b0
  · rw [hab0, dget_dset_self]
    show dget (dset col a0 v) b = _
    by_cases hba0 : b = a0
    · rw [if_pos (Or.inr ⟨rfl, hba0⟩), hba0, dget_dset_self]
    · rw [dget_dset_ne _ _ _ _ (fun he => hba0 he.symm)]
      rw [if_neg (by
        rintro (⟨ha, hb⟩ | ⟨-, hb⟩)
        · exact hba0 (hb.trans ha)
        · exact hba0 hb)]
      rw [hd1 b0] at hcol
      by_cases hb0a0 : b0 = a0
      · rw [if_pos hb0a0] at hcol
        injection hcol with hcolv
        rw [← hcolv, dget_dset_ne _ _ _ _ (fun he => hba0 (he.symm.trans hb0a0)),
          hb0a0, hrow]
        rfl
      · rw [if_neg hb0a0] at hcol
        rw [hcol]
        rfl
  · rw [dget_dset_ne _ _ _ _ (fun he => hab0 he.symm), hd1 a]
    by_cases haa0 : a = a0
    · rw [if_pos haa0]
      show dget (dset row b0 v) b = _
      by_cases hbb0 : b = b0
      · rw [if_pos (Or.inl ⟨haa0, hbb0⟩), hbb0, dget_dset_self]
      · rw [dget_dset_ne _ _ _ _ (fun he => hbb0 he.symm)]
        rw [if_neg (by
          rintro (⟨-, hb⟩ | ⟨ha, -⟩)
          · exact hbb0 hb
          · exact hab0 ha)]
        rw [haa0, hrow]
        rfl
    · rw [if_neg haa0]
      rw [if_neg (by
        rintro (⟨ha, -⟩ | ⟨ha, -⟩)
        · exact haa0 ha
        · exact hab0 ha)]

theorem ng86Loop_syminv (name : String) (seqs : List String) :
    ∀ (fs : List Frac) (j : Nat) (res res' : Table),
      ng86Loop name seqs res j fs = .ok res' →
      (∀ a b, pairGet res a b = pairGet res b a) →
      (∀ a b d, pairGet res a b = some d →
        ∃ x y z, d = [("NG86", ngStats x y z)]) →
      (∀ a b, pairGet res' a b = pairGet res' b a) ∧
      (∀ a b d, pairGet res' a b = some d →
        ∃ x y z, d = [("NG86", ngStats x y z)])
  | [], _, res, res', h, hsym, hshape => by
    cases h
    exact ⟨hsym, hshape⟩
  | [_], _, _, _, h, _, _ => by cases h
  | [_, _], _, _, _, h, _, _ => by cases h
  | x :: y :: z :: rest, j, res, res', h, hsym, hshape => by
    unfold ng86Loop at h
    obtain ⟨row, hrow, h⟩ := bindOk h
    obtain ⟨colName, hcolg, h⟩ := bindOk h
    obtain ⟨col, hcolk, h⟩ := bindOk h
    rw [getKey_ok_iff] at hrow hcolk
    have hpg := pairGet_double_write res name colName row col
      [("NG86", ngStats x y z)] hrow hcolk
    refine ng86Loop_syminv name seqs rest (j + 1) _ res' h ?_ ?_
    · intro a b
      rw [hpg a b, hpg b a]
      by_cases hc : (a = name ∧ b = colName) ∨ (a = colName ∧ b = name)
      · rw [if_pos hc, if_pos (by tauto)]
      · rw [if_neg hc, if_neg (by tauto), hsym a b]
    · intro a b d hd
      rw [hpg a b] at hd
      by_cases hc : (a = name ∧ b = colName) ∨ (a = colName ∧ b = name)
      · rw [if_pos hc] at hd
        cases hd
        exact ⟨x, y, z, rfl⟩
      · rw [if_neg hc] at hd
        exact hshape a b d hd

theorem stepNg86_syminv (st st1 : Table × List String) (line : String)
    (h : stepNg86 st line = .ok st1)
    (hk : ∀ a, a ∈ dkeys st.1 → a ∈ st.2)
    (hsym : ∀ a b, pairGet st.1 a b = pairGet st.1 b a)
    (hshape : ∀ a b d, pairGet st.1 a b = some d →
      ∃ x y z, d = [("NG86", ngStats x y z)])
    (hfresh : ∀ name, rowLabelOf line = some name → name ∉ st.2) :
    (∀ a b, pairGet st1.1 a b = pairGet st1.1 b a) ∧
    (∀ a b d, pairGet st1.1 a b = some d →
      ∃ x y z, d = [("NG86", ngStats x y z)]) := by
  unfold stepNg86 at h
  obtain ⟨fs, _, h⟩ := bindOk h
  cases hl : rowLabelOf line with
  | none =>
    rw [hl] at h
    cases h
    exact ⟨hsym, hshape⟩
  | some name =>
    rw [hl] at h
    obtain ⟨res, hloop, h⟩ := bindOk h
    cases h
    have hnone : dget st.1 name = none :=
      (dget_none_iff _ _).mpr (fun hmem => hfresh name hl (hk name hmem))
    have hnb : ∀ b, pairGet st.1 name b = none := by
      intro b
      unfold pairGet
      rw [hnone]
      rfl
    have hsym0 : ∀ a b, pairGet (dset st.1 name []) a b
        = pairGet (dset st.1 name []) b a := by
      intro a b
      rw [pairGet_reset, pairGet_reset]
      by_cases ha : a = name <;> by_cases hb : b = name
      · rw [if_pos ha, if_pos hb]
      · rw [if_pos ha, if_neg hb, ha, hsym b name, hnb b]
      · rw [if_neg ha, if_pos hb, hb, hsym a name, hnb a]
      · rw [if_neg ha, if_neg hb, hsym a b]
    have hshape0 : ∀ a b d, pairGet (dset st.1 name []) a b = some d →
        ∃ x y z, d = [("NG86", ngStats x y z)] := by
      intro a b d hd
      rw [pairGet_reset] at hd
      by_cases ha : a = name
      · rw [if_pos ha] at hd
        cases hd
      · rw [if_neg ha] at hd
        exact hshape a b d hd
    exact ng86Loop_syminv name (st.2 ++ [name]) fs 0 _ res hloop hsym0 hshape0

theorem ng86Run_syminv : ∀ (ls : List String) (st out : Table × List String),
    ng86Run st ls = .ok out →
    out.2.Nodup →
    (∀ a, a ∈ dkeys st.1 → a ∈ st.2) →
    (∀ a pr b, dget st.1 a = some pr → b ∈ dkeys pr → b ∈ st.2) →
    (∀ a b, pairGet st.1 a b = pairGet st.1 b a) →
    (∀ a b d, pairGet st.1 a b = some d →
      ∃ x y z, d = [("NG86", ngStats x y z)]) →
    (∀ a b, pairGet out.1 a b = pairGet out.1 b a) ∧
    (∀ a b d, pairGet out.1 a b = some d →
      ∃ x y z, d = [("NG86", ngStats x y z)])
  | [], st, out, h, _, _, _, hsym, hshape => by
    cases h
    exact ⟨hsym, hshape⟩
  | l :: ls, st, out, h, hnd, hk, hi, hsym, hshape => by
    unfold ng86Run at h
    cases hs : stepNg86 st l with
    | error e => rw [hs] at h; cases h
    | ok st1 =>
      rw [hs] at h
      have hse1 : st1.2 = st.2 ++ (rowLabelOf l).toList := stepNg86_seqs st l st1 hs
      have hseq : out.2 = st1.2 ++ ls.filterMap rowLabelOf := ng86Run_seqs ls st1 out h
      have hfresh : ∀ name, rowLabelOf l = some name → name ∉ st.2 := by
        intro name hname hmem
        have hout : out.2 = (st.2 ++ [name]) ++ ls.filterMap rowLabelOf := by
          rw [hseq, hse1, hname]
          rfl
        have hnd2 : (st.2 ++ [name]).Nodup := by
          rw [hout] at hnd
          exact hnd.of_append_left
        rcases List.nodup_append.mp hnd2 with ⟨-, -, hdisj⟩
        exact hdisj hmem (by simp)
      have s1sym := stepNg86_syminv st st1 l hs hk hsym hshape hfresh
      have s1inv := stepNg86_nameInv st st1 l hs hk hi
      exact ng86Run_syminv ls st1 out h hnd s1inv.1 s1inv.2 s1sym.1 s1sym.2

theorem ng86Loop_preserve (name colName : String) (seqs : List String)
    (hcn : colName ≠ name) :
    ∀ (fs : List Frac) (j : Nat) (res res' : Table),
      ng86Loop name seqs res j fs = .ok res' →
      (∀ j2, j ≤ j2 → seqs.get? j2 ≠ some colName) →
      pairGet res' name colName = pairGet res name colName ∧
      pairGet res' colName name = pairGet res colName name
  | [], _, res, res', h, _ => by
    cases h
    exact ⟨rfl, rfl⟩
  | [_], _, _, _, h, _ => by cases h
  | [_, _], _, _, _, h, _ => by cases h
  | x :: y :: z :: rest, j, res, res', h, hno => by
    unfold ng86Loop at h
    obtain ⟨row, hrow, h⟩ := bindOk h
    obtain ⟨c, hcg, h⟩ := bindOk h
    obtain ⟨col, hck, h⟩ := bindOk h
    rw [getKey_ok_iff] at hrow hck
    rw [getIdx_ok_iff] at hcg
    have hcc : c ≠ colName := fun he => hno j (Nat.le_refl j) (he ▸ hcg)
    have hpg := pairGet_double_write res name c row col
      [("NG86", ngStats x y z)] hrow hck
    have ih := ng86Loop_preserve name colName seqs hcn rest (j + 1) _ res' h
      (fun j2 hj2 => hno j2 (Nat.le_of_succ_le hj2))
    refine ⟨?_, ?_⟩
    · rw [ih.1, hpg name colName, if_neg ?_]
      rintro (⟨-, hc2⟩ | ⟨-, hc2⟩)
      · exact hcc hc2.symm
      · exact hcn hc2
    · rw [ih.2, hpg colName name, if_neg ?_]
      rintro (⟨hc2, -⟩ | ⟨hc2, -⟩)
      · exact hcn hc2
      · exact hcc hc2.symm

theorem ng86Loop_group (name : String) (seqs : List String) (hnd : seqs.Nodup) :
    ∀ (fs : List Frac) (j : Nat) (res res' : Table) (gi : Nat)
      (colName : String) (x y z : Frac),
      ng86Loop name seqs res j fs = .ok res' →
      seqs.get? (j + gi) = some colName →
      colName ≠ name →
      fs.get? (3 * gi) = some x →
      fs.get? (3 * gi + 1) = some y →
      fs.get? (3 * gi + 2) = some z →
      pairGet res' name colName = some [("NG86", ngStats x y z)] ∧
      pairGet res' colName name = some [("NG86", ngStats x y z)]
  | [], _, _, _, _, _, _, _, _, _, _, _, hx, _, _ => by simp at hx
  | [_], _, _, _, _, _, _, _, _, h, _, _, _, _, _ => by cases h
  | [_, _], _, _, _, _, _, _, _, _, h, _, _, _, _, _ => by cases h
  | f0 :: f1 :: f2 :: rest, j, res, res', gi, colName, x, y, z,
      h, hic, hcn, hx, hy, hz => by
    unfold ng86Loop at h
    obtain ⟨row, hrow, h⟩ := bindOk h
    obtain ⟨c, hcg, h⟩ := bindOk h
    obtain ⟨col, hck, h⟩ := bindOk h
    rw [getKey_ok_iff] at hrow hck
    rw [getIdx_ok_iff] at hcg
    cases gi with
    | zero =>
      rw [Nat.add_zero] at hic
      rw [hic] at hcg
      injection hcg with hc
      subst hc
      simp only [Nat.mul_zero, List.get?_cons_zero, Nat.zero_add,
        List.get?_cons_succ, Option.some.injEq] at hx hy hz
      subst hx
      subst hy
      subst hz
      have hpg := pairGet_double_write res name colName row col
        [("NG86", ngStats f0 f1 f2)] hrow hck
      have hnolater : ∀ j2, j + 1 ≤ j2 → seqs.get? j2 ≠ some colName := by
        intro j2 hj2 hj2eq
        have heq := get?_inj_of_nodup seqs hnd j2 j colName hj2eq hic
        omega
      have hpres := ng86Loop_preserve name colName seqs hcn rest (j + 1) _ res' h
        hnolater
      constructor
      · rw [hpres.1, hpg name colName, if_pos (Or.inl ⟨rfl, rfl⟩)]
      · rw [hpres.2, hpg colName name, if_pos (Or.inr ⟨rfl, rfl⟩)]
    | succ gi2 =>
      have hic2 : seqs.get? ((j + 1) + gi2) = some colName := by
        rw [show (j + 1) + gi2 = j + (gi2 + 1) from by omega]
        exact hic
      have hx2 : rest.get? (3 * gi2) = some x := by
        rw [show 3 * (gi2 + 1) = 3 * gi2 + 1 + 1 + 1 from by ring,
          List.get?_cons_succ, List.get?_cons_succ, List.get?_cons_succ] at hx
        exact hx
      have hy2 : rest.get? (3 * gi2 + 1) = some y := by
        rw [show 3 * (gi2 + 1) + 1 = 3 * gi2 + 1 + 1 + 1 + 1 from by ring,
          List.get?_cons_succ, List.get?_cons_succ, List.get?_cons_succ] at hy
        exact hy
      have hz2 : rest.get? (3 * gi2 + 2) = some z := by
        rw [show 3 * (gi2 + 1) + 2 = 3 * gi2 + 2 + 1 + 1 + 1 from by ring,
          List.get?_cons_succ, List.get?_cons_succ, List.get?_cons_succ] at hz
        exact hz
      exact ng86Loop_group name seqs hnd rest (j + 1) _ res' gi2 colName x y z
        h hic2 hcn hx2 hy2 hz2

/-- C5: first, matrix parsing from an empty table with distinct discovered
names leaves results[a][b][NG86] and results[b][a][NG86] identical for
every pair, every stored pair dict holding exactly the keys omega, dN, dS
under NG86; second, on a labeled row the i-th consecutive group of three
extracted floats is stored, in the order omega, dN, dS, against the i-th
previously discovered sequence name, in both directions. -/
theorem c5_ng86_symmetry_and_grouping :
    (∀ (lines : List String) (res : Table) (seqs : List String),
      parse_ng86 lines [] = .ok (res, seqs) → seqs.Nodup →
      (∀ a b, pairGet res a b = pairGet res b a) ∧
      (∀ a b d, pairGet res a b = some d →
        ∃ x y z, d = [("NG86", ngStats x y z)])) ∧
    (∀ (st : Table × List String) (line : String) (res' : Table)
       (seqs' : List String) (name colName : String) (fs : List Frac)
       (i : Nat) (x y z : Frac),
      stepNg86 st line = .ok (res', seqs') →
      rowLabelOf line = some name →
      floatsOfLine line = .ok fs →
      seqs'.Nodup →
      st.2.get? i = some colName →
      fs.get? (3 * i) = some x →
      fs.get? (3 * i + 1) = some y →
      fs.get? (3 * i + 2) = some z →
      pairGet res' name colName = some [("NG86", ngStats x y z)] ∧
      pairGet res' colName name = some [("NG86", ngStats x y z)]) := by
  constructor
  · intro lines res seqs hok hnd
    exact ng86Run_syminv lines ([], []) (res, seqs) hok hnd
      (by intro a ha; simp [dkeys_nil] at ha)
      (by intro a pr b hget; simp [dget] at hget)
      (fun a b => rfl)
      (by intro a b d hd; simp [pairGet, dget] at hd)
  · intro st line res' seqs' name colName fs i x y z hstep hl hf hnd hgi hx hy hz
    unfold stepNg86 at hstep
    obtain ⟨fs0, hf0, hstep⟩ := bindOk hstep
    rw [hf] at hf0
    injection hf0 with hfs
    subst hfs
    rw [hl] at hstep
    obtain ⟨res, hloop, hstep⟩ := bindOk hstep
    cases hstep
    have hnd1 : (st.2 ++ [name]).Nodup := hnd
    have hcolmem : colName ∈ st.2 := List.get?_mem hgi
    have hnamem : name ∉ st.2 := by
      rcases List.nodup_append.mp hnd1 with ⟨-, -, hdisj⟩
      intro hmem
      exact hdisj hmem (by simp)
    have hcn : colName ≠ name := fun he => hnamem (he ▸ hcolmem)
    have hgi2 : (st.2 ++ [name]).get? (0 + i) = some colName := by
      rw [Nat.zero_add, List.get?_append (get?_some_lt hgi)]
      exact hgi
    exact ng86Loop_group name (st.2 ++ [name]) hnd1 fs 0 _ _ i colName x y z
      hloop hgi2 hcn hx hy hz

theorem c5_ng86_symmetry_and_grouping_witness :
    (pairGet ngRes "A" "B" = pairGet ngRes "B" "A") ∧
    (pairGet ngRes "B" "A" = some [("NG86", ngStats ⟨1, 10⟩ ⟨1, 5⟩ ⟨3, 10⟩)] ∧
     pairGet ngRes "A" "B" = some [("NG86", ngStats ⟨1, 10⟩ ⟨1, 5⟩ ⟨3, 10⟩)]) :=
  ⟨(c5_ng86_symmetry_and_grouping.1 ngLines ngRes ["A", "B"]
      (by decide) (by decide)).1 "A" "B",
   c5_ng86_symmetry_and_grouping.2 (c3After, ["A"]) ngLine2 ngRes ["A", "B"]
      "B" "A" [⟨1, 10⟩, ⟨1, 5⟩, ⟨3, 10⟩] 0 ⟨1, 10⟩ ⟨1, 5⟩ ⟨3, 10⟩
      (by decide) (by decide) (by decide) (by decide) (by decide)
      (by decide) (by decide) (by decide)⟩

theorem c9_sequence_list_labels_witness :
    (["A", "B"] : List String) = ngLines.filterMap rowLabelOf ∧
    (["A", "B"] : List String).length
      = ngLines.countP (fun l => (rowLabelOf l).isSome) ∧
    ∀ (lines2 : List String) (st2 : Table × List String),
      parse_yn00_call lines2 (ngRes, ["A", "B"]) = .ok st2 → st2.2 = ["A", "B"] :=
  c9_sequence_list_labels ngLines [] ngRes ["A", "B"] (by decide)

end Yn00
